import Mathlib

/-!
Verification of the Tag Collection Controller of the `tags-input` repository
(`src/packages/tags/src/tags.tsx`). The definitions below are a shallow
embedding of the controller's pure core: tag values, normalization,
the batch-add engine (`addTags`), the remove engine (`removeTag`),
the delimiter parser (`processInputValue`) and the keyboard focus
navigation (`findFocusableSibling` / the `NavigateRight` branch of
`handleTagKeyDown`). JavaScript machine behavior (string-to-number
coercion, truthiness, the memoized global delimiter regex — whose
`lastIndex` state its `test` consumes and updates — and splitting on the
three delimiter patterns) is modelled explicitly; numbers obtained from
numeric strings are
represented exactly as rationals (plus infinities), which agrees with
IEEE doubles on zero-ness and on every value the claims exercise.
-/

namespace TagsInput

/-- Regex `\s` / JS string-trimming whitespace (ASCII part; the Unicode
extras are never produced by the claims). -/
def isJsWs (c : Char) : Bool :=
  c = ' ' || c = '\t' || c = '\n' || c = '\r' || c.toNat = 11 || c.toNat = 12

/-- JavaScript `s.trim()`: strip whitespace from both ends. -/
def jsTrim (s : String) : String :=
  String.mk (((s.data.dropWhile isJsWs).reverse.dropWhile isJsWs).reverse)

/-- JavaScript `s.toLowerCase()` (ASCII case mapping; no claim exercises
non-ASCII case folding). -/
def jsToLower (s : String) : String :=
  String.mk (s.data.map Char.toLower)

/-- Numeric value of a decimal digit character. -/
def digitVal (c : Char) : Nat := c.toNat - 48

/-- Whether a character is a hexadecimal digit (for `0x` literals). -/
def isHexDigitChar (c : Char) : Bool :=
  c.isDigit || (97 ≤ c.toNat && c.toNat ≤ 102) || (65 ≤ c.toNat && c.toNat ≤ 70)

/-- Numeric value of a hexadecimal digit character. -/
def hexVal (c : Char) : Nat :=
  if c.isDigit then c.toNat - 48
  else if 97 ≤ c.toNat && c.toNat ≤ 102 then c.toNat - 87
  else c.toNat - 55

/-- Whether a character is an octal digit (for `0o` literals). -/
def isOctDigitChar (c : Char) : Bool := 48 ≤ c.toNat && c.toNat ≤ 55

/-- Whether a character is a binary digit (for `0b` literals). -/
def isBinDigitChar (c : Char) : Bool := c = '0' || c = '1'

/-- Value of a digit string in a given base. -/
def digitsVal (base : Nat) (val : Char → Nat) (ds : List Char) : Nat :=
  ds.foldl (fun acc c => acc * base + val c) 0

/-- A JavaScript number that `Number(string)` can yield, NaN excluded
(callers test `isNaN` first). Finite values are kept as exact rationals:
this agrees with IEEE doubles on integer values and on being zero for
every input the repository's claims exercise. -/
inductive JsNum where
  | finite (q : ℚ)
  | posInf
  | negInf
deriving DecidableEq, Repr

/-- Negation of a JavaScript number (for a leading minus sign). The
finite case negates the numerator directly (the pair stays reduced). -/
def jsNegate : JsNum → JsNum
  | .finite q => .finite (mkRat (-q.num) q.den)
  | .posInf => .negInf
  | .negInf => .posInf

/-- Parse the exponent part (`e`/`E`, optional sign, digits) of a JS
decimal literal, returning the signed decimal exponent; the whole
remainder must be consumed; `none` means the literal is invalid (NaN). -/
def jsExponent (r : List Char) : Option Int :=
  match r with
  | [] => some 0
  | e :: rest =>
    if e = 'e' || e = 'E' then
      let signed : Bool × List Char :=
        match rest with
        | '+' :: r2 => (false, r2)
        | '-' :: r2 => (true, r2)
        | _ => (false, rest)
      let (neg, r2) := signed
      let (ed, r3) := r2.span (fun c => c.isDigit)
      if ed.isEmpty || !r3.isEmpty then none
      else
        let ev : Int := (digitsVal 10 digitVal ed : Nat)
        some (if neg then -ev else ev)
    else none

/-- Parse an unsigned JS decimal literal: `DecimalDigits . DecimalDigits?
ExponentPart?`, `. DecimalDigits ExponentPart?` or `DecimalDigits
ExponentPart?`. `none` means NaN. The value
`(intpart.fracpart) * 10 ^ exp` is assembled as one rational. -/
def jsDecimal (cs : List Char) : Option ℚ :=
  let (ip, r1) := cs.span (fun c => c.isDigit)
  let pointed : Bool × List Char :=
    match r1 with
    | '.' :: rest => (true, rest)
    | _ => (false, r1)
  let (hasPoint, r2) := pointed
  let (fp, r3) := if hasPoint then r2.span (fun c => c.isDigit) else ([], r2)
  if ip.isEmpty && fp.isEmpty then none
  else
    match jsExponent r3 with
    | none => none
    | some e =>
      let mant : Nat :=
        digitsVal 10 digitVal ip * 10 ^ fp.length + digitsVal 10 digitVal fp
      if 0 ≤ e then
        some (mkRat (mant * 10 ^ e.toNat : Nat) (10 ^ fp.length))
      else
        some (mkRat (mant : Nat) (10 ^ fp.length * 10 ^ (-e).toNat))

/-- Parse an unsigned JS numeric literal: `Infinity` or a decimal literal. -/
def jsUnsigned (cs : List Char) : Option JsNum :=
  if cs = ("Infinity").toList then some JsNum.posInf
  else (jsDecimal cs).map JsNum.finite

/-- Parse an optionally signed JS numeric literal. -/
def jsSigned (cs : List Char) : Option JsNum :=
  match cs with
  | '+' :: rest => jsUnsigned rest
  | '-' :: rest => (jsUnsigned rest).map jsNegate
  | _ => jsUnsigned cs

/-- `Number(string)` on already-trimmed text: empty text is `0`;
`0x`/`0o`/`0b` radix literals (no sign allowed) or a signed decimal /
`Infinity` literal; anything else is NaN (`none`). -/
def jsNumberOfTrimmed (cs : List Char) : Option JsNum :=
  match cs with
  | [] => some (JsNum.finite 0)
  | '0' :: x :: rest =>
    if x = 'x' || x = 'X' then
      if !rest.isEmpty && rest.all isHexDigitChar
      then some (JsNum.finite (digitsVal 16 hexVal rest : ℚ)) else none
    else if x = 'o' || x = 'O' then
      if !rest.isEmpty && rest.all isOctDigitChar
      then some (JsNum.finite (digitsVal 8 digitVal rest : ℚ)) else none
    else if x = 'b' || x = 'B' then
      if !rest.isEmpty && rest.all isBinDigitChar
      then some (JsNum.finite (digitsVal 2 digitVal rest : ℚ)) else none
    else jsSigned ('0' :: x :: rest)
  | _ => jsSigned cs

/-- JavaScript `Number(s)` for a string, `none` meaning NaN. JS first
strips surrounding whitespace. -/
def jsNumber (s : String) : Option JsNum :=
  jsNumberOfTrimmed (jsTrim s).toList

/-- A primitive tag value: `string | number` in the source. -/
inductive Primitive where
  | str (s : String)
  | num (n : JsNum)
deriving DecidableEq, Repr

/-- A tag: a primitive, or a structured object whose `value` field is the
identity (`Wrapper` / `ExtendedObject` in the source; the extra fields of
an extended object are opaque payload and are not modelled). -/
inductive Tag where
  | prim (p : Primitive)
  | obj (value : Primitive)
deriving DecidableEq, Repr

/-- JavaScript `String(n)` for a number. Exact for integral values
(`String(-0)` is `"0"`, matching the rational `-0 = 0`); non-integral
formatting is approximated by the rational's representation, which no
claim exercises. -/
def jsNumToString : JsNum → String
  | .posInf => "Infinity"
  | .negInf => "-Infinity"
  | .finite q => if q.den = 1 then toString q.num else toString q

/-- JavaScript `String(p)` for a primitive tag value. -/
def primToString : Primitive → String
  | .str s => s
  | .num n => jsNumToString n

/-- `normalizeTag` from the source: for a structured tag use its `value`
field, otherwise the primitive itself; stringify; lower-case when the
comparison is case-insensitive (JS `toLowerCase`). -/
def normalizeTag (tag : Tag) (caseSensitive : Bool) : String :=
  match tag with
  | .obj v => if caseSensitive then primToString v else jsToLower (primToString v)
  | .prim p => if caseSensitive then primToString p else jsToLower (primToString p)

/-- `isDuplicate` from the source: the normalized tag is already among the
batch's accepted normalized forms or among the existing tags' normalized
forms (the source's `Set`s are modelled as lists queried by membership). -/
def isDuplicate (normalizedTag : String)
    (uniqueNormalizedTags normalizedExistingTags : List String) : Bool :=
  uniqueNormalizedTags.contains normalizedTag
    || normalizedExistingTags.contains normalizedTag

/-- Configuration of one `TagsInput` controller instance. Field defaults
mirror the component's prop defaults; `maxTags`/`minTags` are `none` when
the prop is left `undefined`; `isTagNonInteractive` is the computed
`disabled || readOnly`. -/
structure Config where
  maxTags : Option Int := none
  minTags : Option Int := none
  allowDuplicates : Bool := false
  caseSensitiveDuplicates : Bool := false
  isTagNonInteractive : Bool := false
  parseInput : Option (Primitive → Tag) := none

/-- JavaScript truthiness of a (non-NaN) number: nonzero. -/
def intTruthy (n : Int) : Bool := decide (n ≠ 0)

/-- The source's guard `maxTags && x >= maxTags`: false when `maxTags` is
`undefined` or `0` (falsy). Used both as the pre-check against the current
length and inside the batch loop against current length plus accepted. -/
def maxLimitHit (maxTags : Option Int) (len : Nat) : Bool :=
  match maxTags with
  | none => false
  | some m => intTruthy m && decide (m ≤ (len : Int))

/-- The source's guard `minTags && x < minTags`: false when `minTags` is
`undefined` or `0` (falsy). Used as the pre-check against the current
length and as the post-check against current length plus accepted. -/
def minBelow (minTags : Option Int) (len : Nat) : Bool :=
  match minTags with
  | none => false
  | some m => intTruthy m && decide ((len : Int) < m)

/-- Apply the configured `parseInput` preprocessing to one raw candidate
(identity when the host supplies none). -/
def applyParseInput (cfg : Config) (p : Primitive) : Tag :=
  match cfg.parseInput with
  | some f => f p
  | none => .prim p

/-- The candidate loop of `addTags` (`for (const singleTag of arrayTags)`),
carrying the `uniqueNormalizedTags` set and the `tagsToAdd` accumulator.
`baseLen` is `tags.length`. The `break` on the capacity check ends the
whole loop, discarding the remaining candidates. -/
def addTagsLoop (cfg : Config) (baseLen : Nat) (normalizedExistingTags : List String) :
    List Primitive → List String → List Tag → List Tag
  | [], _, tagsToAdd => tagsToAdd
  | singleTag :: rest, uniqueNormalizedTags, tagsToAdd =>
    let parsedTag := applyParseInput cfg singleTag
    let normalizedTag := normalizeTag parsedTag cfg.caseSensitiveDuplicates
    if maxLimitHit cfg.maxTags (baseLen + tagsToAdd.length) then
      tagsToAdd
    else if cfg.allowDuplicates then
      addTagsLoop cfg baseLen normalizedExistingTags rest
        uniqueNormalizedTags (tagsToAdd ++ [parsedTag])
    else if isDuplicate normalizedTag uniqueNormalizedTags normalizedExistingTags then
      addTagsLoop cfg baseLen normalizedExistingTags rest uniqueNormalizedTags tagsToAdd
    else
      addTagsLoop cfg baseLen normalizedExistingTags rest
        (uniqueNormalizedTags ++ [normalizedTag]) (tagsToAdd ++ [parsedTag])

/-- The input of `addTags`: `Primitive | Primitive[]`, or `null`
(`tag == null` also catches `undefined`). -/
inductive AddInput where
  | nullInput
  | single (p : Primitive)
  | batch (ps : List Primitive)
deriving DecidableEq, Repr

/-- Whether the input is `null`/`undefined` (the source's `tag == null`). -/
def isNullInput : AddInput → Bool
  | .nullInput => true
  | _ => false

/-- The source's `Array.isArray(tag) ? tag : [tag]` coercion. -/
def toArrayTags : AddInput → List Primitive
  | .nullInput => []
  | .single p => [p]
  | .batch ps => ps

/-- Normalized forms of the existing collection
(`tags.map((tag) => normalizeTag(tag, caseSensitiveDuplicates))`). -/
def existingNorms (cfg : Config) (tags : List Tag) : List String :=
  tags.map (fun t => normalizeTag t cfg.caseSensitiveDuplicates)

/-- The tail of `addTags` after the loop: the `minTags` post-check, then
`setTags` only when at least one candidate was accepted. `none` means no
collection write (and hence no change notification); `some` is the single
replacement written. -/
def addTagsCommit (cfg : Config) (tags : List Tag) (tagsToAdd : List Tag) :
    Option (List Tag) :=
  if minBelow cfg.minTags (tags.length + tagsToAdd.length) then none
  else if 0 < tagsToAdd.length then some (tags ++ tagsToAdd) else none

/-- `addTags` from the source (lines 364-437): guards for non-interactive
controller, `null` input, the `maxTags` pre-check and the `minTags`
pre-check, then the candidate loop and the commit step. The result is
`none` when nothing observable happens and `some next` when the collection
is replaced (exactly one `setTags` call). -/
def addTags (cfg : Config) (tags : List Tag) (input : AddInput) : Option (List Tag) :=
  if cfg.isTagNonInteractive then none
  else if isNullInput input then none
  else if maxLimitHit cfg.maxTags tags.length then none
  else if minBelow cfg.minTags tags.length then none
  else
    addTagsCommit cfg tags
      (addTagsLoop cfg tags.length (existingNorms cfg tags) (toArrayTags input) [] [])

/-- Outcome of one `removeTag` call: the collection write (if any) and
whether `inputRef.current?.focus()` was invoked (the text-entry surface
ref is assumed attached). -/
structure RemoveResult where
  newTags : Option (List Tag)
  focusedInput : Bool
deriving DecidableEq, Repr

/-- `removeTag` from the source (lines 439-455): no-op when non-interactive
or when the index is negative, at least the length, or not a whole number
(`Number.isInteger`); otherwise `splice(index, 1)` the collection, write
it, and focus the input. The JS `number` index is modelled as a rational. -/
def removeTag (cfg : Config) (tags : List Tag) (index : ℚ) : RemoveResult :=
  if cfg.isTagNonInteractive then ⟨none, false⟩
  else if decide (index < 0) || decide ((tags.length : ℚ) ≤ index)
      || decide (index.den ≠ 1) then ⟨none, false⟩
  else ⟨some (tags.eraseIdx index.num.toNat), true⟩

/-- A delimiter choice of the text-entry surface (the `Delimiters` enum). -/
inductive Delimiter where
  | comma
  | semicolon
  | space
deriving DecidableEq, Repr

/-- Match one delimiter's pattern at the head of the text, returning the
remainder after the match: `,\s*` for comma, `;\s*` for semicolon, `\s+`
for space (greedy, as the regexes are). -/
def matchOneDelim (d : Delimiter) (cs : List Char) : Option (List Char) :=
  match d, cs with
  | .comma, ',' :: rest => some (rest.dropWhile isJsWs)
  | .comma, _ => none
  | .semicolon, ';' :: rest => some (rest.dropWhile isJsWs)
  | .semicolon, _ => none
  | .space, c :: rest => if isJsWs c then some (rest.dropWhile isJsWs) else none
  | .space, [] => none

/-- Match the combined alternation pattern at the head of the text: the
configured delimiters are tried in order, first match wins (regex
alternation). -/
def matchDelims (ds : List Delimiter) (cs : List Char) : Option (List Char) :=
  match ds with
  | [] => none
  | d :: rest =>
    match matchOneDelim d cs with
    | some r => some r
    | none => matchDelims rest cs

/-- Search for the leftmost match of the combined pattern in a suffix of
the text, `pos` being the absolute index of the suffix's head; returns
the match's absolute start and end. -/
def delimSearch (ds : List Delimiter) : List Char → Nat → Option (Nat × Nat)
  | [], _ => none
  | c :: rest, pos =>
    match matchDelims ds (c :: rest) with
    | some r => some (pos, pos + ((c :: rest).length - r.length))
    | none => delimSearch ds rest (pos + 1)

/-- `delimiterRegex.test(text)` on the source's memoized global regex
(`useDelimiterRegex` builds it with the `g` flag and `useMemo` keeps the
object, so its `lastIndex` persists between calls that reuse it): the
search starts at `lastIndex`; when `lastIndex` exceeds the text length
the test fails and resets `lastIndex` to 0; on a match it returns true
and sets `lastIndex` to the match end; on no match it returns false and
resets `lastIndex` to 0. Result: the verdict and the new `lastIndex`. -/
def delimTest (ds : List Delimiter) (cs : List Char) (lastIndex : Nat) :
    Bool × Nat :=
  if cs.length < lastIndex then (false, 0)
  else
    match delimSearch ds (cs.drop lastIndex) lastIndex with
    | some (_, e) => (true, e)
    | none => (false, 0)

/-- `text.split(delimiterRegex)`: scan left to right, cutting a piece at
every match (every match consumes at least one character, so `cs.length`
steps of fuel always suffice; the fuel-exhausted branch is unreachable). -/
def splitDelimsAux (ds : List Delimiter) (fuel : Nat) (cs : List Char)
    (cur : List Char) : List String :=
  match fuel with
  | 0 => [String.mk cur]
  | fuel + 1 =>
    match cs with
    | [] => [String.mk cur]
    | c :: rest =>
      match matchDelims ds (c :: rest) with
      | some r => String.mk cur :: splitDelimsAux ds fuel r []
      | none => splitDelimsAux ds fuel rest (cur ++ [c])

/-- `text.split(delimiterRegex)` on the whole text. -/
def splitDelims (ds : List Delimiter) (cs : List Char) : List String :=
  splitDelimsAux ds (cs.length + 1) cs []

/-- `parseTag` from `processInputValue`:
`!isNaN(Number(tag)) ? Number(tag) : tag.trim()`. -/
def parseTag (t : String) : Primitive :=
  match jsNumber t with
  | some n => .num n
  | none => .str (jsTrim t)

/-- JavaScript truthiness of a primitive (`filter(Boolean)`): a string is
truthy iff non-empty; a number is truthy iff nonzero (infinities are
truthy; NaN cannot occur here). -/
def jsTruthyPrim : Primitive → Bool
  | .str s => decide (s ≠ "")
  | .num (.finite q) => decide (q ≠ 0)
  | .num _ => true

/-- `processInputValue` from the source (lines 819-835): trim the raw text
(`none` when empty: `addTags` is never called and the regex is untouched);
then `delimiters.length && delimiterRegex.test(trimmedValue)` — the
short-circuit skips the stateful test when no delimiter is configured,
otherwise the test consumes and updates the memoized regex's `lastIndex`
whether or not it succeeds. On a successful test the text is split
(`String.split` scans the whole text from position 0 and does not touch
the regex object's `lastIndex`), each piece parsed and `filter(Boolean)`
applied; otherwise the batch is the single parsed trimmed text. The
result pairs the candidate list handed to `addTags` (`none` = no call)
with the regex's `lastIndex` after the call. -/
def processInputValue (ds : List Delimiter) (value : String) (lastIndex : Nat) :
    Option (List Primitive) × Nat :=
  let trimmedValue := jsTrim value
  if trimmedValue = "" then (none, lastIndex)
  else if ds.length = 0 then (some [parseTag trimmedValue], lastIndex)
  else
    let res := delimTest ds trimmedValue.toList lastIndex
    if res.1 = true then
      (some (((splitDelims ds trimmedValue.toList).map parseTag).filter jsTruthyPrim),
       res.2)
    else (some [parseTag trimmedValue], res.2)

/-- Interaction focus: either a tag element (by its roster index) or the
text-entry surface holds focus. -/
inductive FocusState where
  | textEntry
  | focusedTag (i : Nat)
deriving DecidableEq, Repr

/-- How a tag item renders its `data-disabled` attribute:
`data-disabled={isTagDisabled ? "" : undefined}` — the empty string when
disabled, absent otherwise. -/
def dataDisabledAttr (isTagDisabled : Bool) : Option String :=
  if isTagDisabled then some ("") else none

/-- The sibling check inside `findFocusableSibling`:
`sibling.getAttribute("data-disabled") === "true"` (`getAttribute` yields
`null` for an absent attribute, modelled as `none`). -/
def siblingDisabledCheck (attr : Option String) : Bool :=
  attr == some ("true")

/-- Walk a run of siblings (their disabled flags) towards higher indices,
starting at roster position `pos`, returning the first one whose
`data-disabled` check fails (i.e. the first the source considers
focusable). -/
def scanForward (sibs : List Bool) (pos : Nat) : Option Nat :=
  match sibs with
  | [] => none
  | d :: rest =>
    if siblingDisabledCheck (dataDisabledAttr d) then scanForward rest (pos + 1)
    else some pos

/-- Walk siblings towards lower indices, starting at roster position
`pos`, returning the first one whose `data-disabled` check fails. -/
def scanBackward (sibs : List Bool) (pos : Nat) : Option Nat :=
  match sibs with
  | [] => none
  | d :: rest =>
    if siblingDisabledCheck (dataDisabledAttr d) then scanBackward rest (pos - 1)
    else some pos

/-- Sibling traversal direction. -/
inductive Direction where
  | previous
  | next
deriving DecidableEq, Repr

/-- `findFocusableSibling` from the source (lines 631-655) over an explicit
roster of tag items (each entry is that tag's disabled flag): walk the
element siblings in the given direction and return the first whose
`data-disabled` attribute check fails; `none` when no sibling qualifies. -/
def findFocusableSibling (roster : List Bool) (i : Nat) :
    Direction → Option Nat
  | .next => scanForward (roster.drop (i + 1)) (i + 1)
  | .previous => scanBackward ((roster.take i).reverse) (i - 1)

/-- The `NavigateRight` branch of `handleTagKeyDown` (lines 677-686): focus
the found sibling, else focus the input surface. -/
def navigateRight (roster : List Bool) (i : Nat) : FocusState :=
  match findFocusableSibling roster i .next with
  | some j => .focusedTag j
  | none => .textEntry

/-- The `NavigateLeft` branch of `handleTagKeyDown`: focus the found
sibling, else stay put (no `focus()` call is made). -/
def navigateLeft (roster : List Bool) (i : Nat) : FocusState :=
  match findFocusableSibling roster i .previous with
  | some j => .focusedTag j
  | none => .focusedTag i

/-- One controller operation: an `addTags` call or a `removeTag` call. -/
inductive Op where
  | add (input : AddInput)
  | remove (index : ℚ)

/-- Apply one operation to the collection: a rejected operation leaves it
unchanged, an accepted one replaces it with the written value. -/
def applyOp (cfg : Config) (tags : List Tag) : Op → List Tag
  | .add input => (addTags cfg tags input).getD tags
  | .remove q => ((removeTag cfg tags q).newTags).getD tags

/-- Run a sequence of `addTags`/`removeTag` calls from a starting
collection. -/
def runOps (cfg : Config) (tags : List Tag) (ops : List Op) : List Tag :=
  ops.foldl (applyOp cfg) tags

/-- Follows the spec's words (§4.3 step 6), for comparison with the
source's batch loop: with duplicates disallowed, a candidate is skipped
exactly when its normalized form matches the existing set or a normalized
form already accepted earlier in this same batch, and accepted otherwise. -/
def specBatchAccept (cfg : Config) (normalizedExistingTags : List String) :
    List String → List Primitive → List Tag
  | _, [] => []
  | seen, c :: rest =>
    let parsed := applyParseInput cfg c
    let n := normalizeTag parsed cfg.caseSensitiveDuplicates
    if n ∈ seen ∨ n ∈ normalizedExistingTags then
      specBatchAccept cfg normalizedExistingTags seen rest
    else
      parsed :: specBatchAccept cfg normalizedExistingTags (seen ++ [n]) rest

/-- Modelled from the spec: the State Container's `write`
(`useControllableState`, whose implementation is not part of the core
source) notifies the host exactly once per successful write (§4.1), so a
call that writes nothing notifies zero times and a call that performs one
replacement notifies once. -/
def notificationCount : Option (List Tag) → Nat
  | none => 0
  | some _ => 1

/-! ### Helper lemmas -/

theorem maxLimitHit_false_lt {m : Int} {n : Nat} (hm : 0 < m)
    (h : maxLimitHit (some m) n = false) : (n : Int) < m := by
  simp [maxLimitHit, intTruthy] at h
  omega

theorem addTagsLoop_length_le (cfg : Config) (m : Int) (hmax : cfg.maxTags = some m)
    (hm : 0 < m) (baseLen : Nat) (existing : List String) :
    ∀ (candidates : List Primitive) (uniq : List String) (acc : List Tag),
      (baseLen : Int) + (acc.length : Int) ≤ m →
      (baseLen : Int) + ((addTagsLoop cfg baseLen existing candidates uniq acc).length : Int) ≤ m := by
  intro candidates
  induction candidates with
  | nil =>
    intro uniq acc h
    simpa [addTagsLoop] using h
  | cons c rest ih =>
    intro uniq acc h
    simp only [addTagsLoop, hmax]
    cases hb : maxLimitHit (some m) (baseLen + acc.length) with
    | true => simpa using h
    | false =>
      have hlt : (baseLen : Int) + (acc.length : Int) < m := by
        have := maxLimitHit_false_lt hm hb
        push_cast at this ⊢
        omega
      simp only [hb, Bool.false_eq_true, if_false]
      by_cases hd : cfg.allowDuplicates = true
      · simp only [hd, if_true]
        apply ih
        simp only [List.length_append, List.length_singleton]
        push_cast
        omega
      · simp only [eq_false_of_ne_true hd, Bool.false_eq_true, if_false]
        by_cases hdup : isDuplicate
            (normalizeTag (applyParseInput cfg c) cfg.caseSensitiveDuplicates) uniq existing = true
        · simp only [hdup, if_true]
          exact ih uniq acc h
        · simp only [eq_false_of_ne_true hdup, Bool.false_eq_true, if_false]
          apply ih
          simp only [List.length_append, List.length_singleton]
          push_cast
          omega

theorem addTags_length_le (cfg : Config) (m : Int) (hmax : cfg.maxTags = some m)
    (hm : 0 < m) (tags : List Tag) (hlen : (tags.length : Int) ≤ m) (input : AddInput) :
    (((addTags cfg tags input).getD tags).length : Int) ≤ m := by
  unfold addTags
  by_cases h1 : cfg.isTagNonInteractive = true
  · simpa [h1] using hlen
  · simp only [eq_false_of_ne_true h1, Bool.false_eq_true, if_false]
    by_cases h2 : isNullInput input = true
    · simpa [h2] using hlen
    · simp only [eq_false_of_ne_true h2, Bool.false_eq_true, if_false]
      by_cases h3 : maxLimitHit cfg.maxTags tags.length = true
      · simpa [h3] using hlen
      · simp only [eq_false_of_ne_true h3, Bool.false_eq_true, if_false]
        by_cases h4 : minBelow cfg.minTags tags.length = true
        · simpa [h4] using hlen
        · simp only [eq_false_of_ne_true h4, Bool.false_eq_true, if_false]
          have hloop := addTagsLoop_length_le cfg m hmax hm tags.length
            (existingNorms cfg tags) (toArrayTags input) [] [] (by simpa using hlen)
          unfold addTagsCommit
          by_cases h5 : minBelow cfg.minTags
              (tags.length + (addTagsLoop cfg tags.length (existingNorms cfg tags)
                (toArrayTags input) [] []).length) = true
          · simpa [h5] using hlen
          · simp only [eq_false_of_ne_true h5, Bool.false_eq_true, if_false]
            by_cases h6 : 0 < (addTagsLoop cfg tags.length (existingNorms cfg tags)
                (toArrayTags input) [] []).length
            · simp only [h6, if_true, Option.getD_some, List.length_append]
              push_cast at hloop ⊢
              omega
            · simpa [h6] using hlen

theorem removeTag_length_le (cfg : Config) (tags : List Tag) (q : ℚ) :
    ((((removeTag cfg tags q).newTags).getD tags).length : Int) ≤ (tags.length : Int) := by
  unfold removeTag
  split
  · simp
  · split
    · simp
    · simp only [Option.getD_some]
      have := List.length_eraseIdx_le tags q.num.toNat
      omega

theorem applyOp_length_le (cfg : Config) (m : Int) (hmax : cfg.maxTags = some m)
    (hm : 0 < m) (tags : List Tag) (hlen : (tags.length : Int) ≤ m) (op : Op) :
    (((applyOp cfg tags op).length : Int)) ≤ m := by
  cases op with
  | add input => exact addTags_length_le cfg m hmax hm tags hlen input
  | remove q => exact le_trans (removeTag_length_le cfg tags q) hlen

theorem runOps_length_le (cfg : Config) (m : Int) (hmax : cfg.maxTags = some m)
    (hm : 0 < m) : ∀ (ops : List Op) (tags : List Tag),
    (tags.length : Int) ≤ m → ((runOps cfg tags ops).length : Int) ≤ m := by
  intro ops
  induction ops with
  | nil => intro tags hlen; simpa [runOps] using hlen
  | cons op rest ih =>
    intro tags hlen
    have hstep := applyOp_length_le cfg m hmax hm tags hlen op
    simpa [runOps, List.foldl_cons] using ih (applyOp cfg tags op) hstep

/-! ### Claim C1 -/

/-- C1: with `maxTags` set and positive, any sequence of `addTags` /
`removeTag` calls starting from a collection within the cap keeps the
collection length at most `maxTags`; and within one batch the loop stops
at the boundary: with `maxTags = 2`, an empty collection and duplicates
allowed, adding the batch a, b, c yields exactly the collection a, b. -/
theorem c1_maxTags_never_exceeded (cfg : Config) (m : Int) (tags : List Tag)
    (ops : List Op) (hmax : cfg.maxTags = some m) (hm : 0 < m)
    (hlen : (tags.length : Int) ≤ m) :
    ((runOps cfg tags ops).length : Int) ≤ m ∧
    addTags { maxTags := some 2, allowDuplicates := true } []
        (.batch [.str ("a"), .str ("b"), .str ("c")])
      = some [.prim (.str ("a")), .prim (.str ("b"))] :=
  ⟨runOps_length_le cfg m hmax hm ops tags hlen, by decide⟩

/-- Witness for C1 at a concrete configuration, start and call sequence. -/
theorem c1_maxTags_never_exceeded_witness :
    ({ maxTags := some 2, allowDuplicates := true } : Config).maxTags = some 2 ∧
    (0 : Int) < 2 ∧ ((([] : List Tag).length : Int)) ≤ 2 ∧
    ((runOps { maxTags := some 2, allowDuplicates := true } []
        [.add (.batch [.str ("a"), .str ("b"), .str ("c")]),
         .add (.single (.str ("d"))), .remove 0]).length : Int) ≤ 2 :=
  ⟨rfl, by decide, by decide,
    (c1_maxTags_never_exceeded { maxTags := some 2, allowDuplicates := true } 2 []
      [.add (.batch [.str ("a"), .str ("b"), .str ("c")]),
       .add (.single (.str ("d"))), .remove 0] rfl (by decide) (by decide)).1⟩

/-! ### Claim C2 -/

theorem maxLimitHit_none (n : Nat) : maxLimitHit none n = false := rfl

theorem isDuplicate_iff (n : String) (uniq existing : List String) :
    isDuplicate n uniq existing = true ↔ n ∈ uniq ∨ n ∈ existing := by
  simp [isDuplicate]

theorem addTagsLoop_eq_specBatchAccept (cfg : Config)
    (hdup : cfg.allowDuplicates = false) (hmax : cfg.maxTags = none)
    (baseLen : Nat) (existing : List String) :
    ∀ (candidates : List Primitive) (seen : List String) (acc : List Tag),
      addTagsLoop cfg baseLen existing candidates seen acc
        = acc ++ specBatchAccept cfg existing seen candidates := by
  intro candidates
  induction candidates with
  | nil => intro seen acc; simp [addTagsLoop, specBatchAccept]
  | cons c rest ih =>
    intro seen acc
    simp only [addTagsLoop, specBatchAccept, hmax, maxLimitHit_none,
      Bool.false_eq_true, if_false, hdup]
    by_cases hmem : normalizeTag (applyParseInput cfg c) cfg.caseSensitiveDuplicates ∈ seen
        ∨ normalizeTag (applyParseInput cfg c) cfg.caseSensitiveDuplicates ∈ existing
    · rw [if_pos ((isDuplicate_iff _ _ _).mpr hmem), if_pos hmem]
      exact ih seen acc
    · rw [if_neg (fun hc => hmem ((isDuplicate_iff _ _ _).mp hc)), if_neg hmem]
      rw [ih _ _]
      simp

theorem addTagsLoop_nodup (cfg : Config) (hdup : cfg.allowDuplicates = false)
    (baseLen : Nat) (existing : List String) :
    ∀ (candidates : List Primitive) (seen : List String) (acc : List Tag),
      acc.map (fun t => normalizeTag t cfg.caseSensitiveDuplicates) = seen →
      seen.Nodup → (∀ x ∈ seen, x ∉ existing) →
      ((addTagsLoop cfg baseLen existing candidates seen acc).map
          (fun t => normalizeTag t cfg.caseSensitiveDuplicates)).Nodup ∧
      (∀ t ∈ addTagsLoop cfg baseLen existing candidates seen acc,
          normalizeTag t cfg.caseSensitiveDuplicates ∉ existing) := by
  intro candidates
  induction candidates with
  | nil =>
    intro seen acc hmap hnd hdis
    refine ⟨by simpa [addTagsLoop, hmap] using hnd, fun t ht => hdis _ ?_⟩
    rw [← hmap]
    exact List.mem_map_of_mem _ (by simpa [addTagsLoop] using ht)
  | cons c rest ih =>
    intro seen acc hmap hnd hdis
    simp only [addTagsLoop]
    cases hb : maxLimitHit cfg.maxTags (baseLen + acc.length) with
    | true =>
      simp only [if_true]
      refine ⟨by simpa [hmap] using hnd, fun t ht => hdis _ ?_⟩
      rw [← hmap]
      exact List.mem_map_of_mem _ ht
    | false =>
      simp only [Bool.false_eq_true, if_false, hdup]
      by_cases hdd : isDuplicate
          (normalizeTag (applyParseInput cfg c) cfg.caseSensitiveDuplicates) seen existing = true
      · rw [if_pos hdd]
        exact ih seen acc hmap hnd hdis
      · rw [if_neg hdd]
        have hmem := fun h => hdd ((isDuplicate_iff _ _ _).mpr h)
        have hnotseen : normalizeTag (applyParseInput cfg c) cfg.caseSensitiveDuplicates ∉ seen :=
          fun h => hmem (Or.inl h)
        have hnotex : normalizeTag (applyParseInput cfg c) cfg.caseSensitiveDuplicates ∉ existing :=
          fun h => hmem (Or.inr h)
        apply ih
        · simp [hmap]
        · simp [List.nodup_append, hnd, hnotseen]
        · intro x hx
          rcases List.mem_append.mp hx with h | h
          · exact hdis x h
          · rw [List.mem_singleton.mp h]
            exact hnotex

/-- C2: with duplicates disallowed, the batch loop skips a candidate
exactly when its normalized form matches an existing tag or a candidate
accepted earlier in the same batch (stated as equality with the spec's
accept function, when no capacity cap cuts the batch short); consequently
the accepted tags of one batch have pairwise distinct normalized forms,
none matching an existing tag; and with case-insensitive comparison and
existing tag Red, adding red is a no-op. -/
theorem c2_batch_dedup (cfg : Config) (hdup : cfg.allowDuplicates = false) :
    (cfg.maxTags = none →
      ∀ (baseLen : Nat) (existing : List String) (candidates : List Primitive),
        addTagsLoop cfg baseLen existing candidates [] []
          = specBatchAccept cfg existing [] candidates) ∧
    (∀ (baseLen : Nat) (existing : List String) (candidates : List Primitive),
        ((addTagsLoop cfg baseLen existing candidates [] []).map
            (fun t => normalizeTag t cfg.caseSensitiveDuplicates)).Nodup ∧
        ∀ t ∈ addTagsLoop cfg baseLen existing candidates [] [],
          normalizeTag t cfg.caseSensitiveDuplicates ∉ existing) ∧
    addTags { } [Tag.prim (.str ("Red"))] (.single (.str ("red"))) = none := by
  refine ⟨fun hmax baseLen existing candidates => ?_, fun baseLen existing candidates => ?_, by decide⟩
  · simpa using addTagsLoop_eq_specBatchAccept cfg hdup hmax baseLen existing candidates [] []
  · exact addTagsLoop_nodup cfg hdup baseLen existing candidates [] [] rfl
      List.nodup_nil (by simp)

/-- Witness for C2 at the default configuration and the Red / red
scenario. -/
theorem c2_batch_dedup_witness :
    ({ } : Config).allowDuplicates = false ∧
    addTags { } [Tag.prim (.str ("Red"))] (.single (.str ("red"))) = none :=
  ⟨rfl, (c2_batch_dedup { } rfl).2.2⟩

/-! ### Claim C3 -/

/-- C3: every `addTags` call either changes nothing observable (no write,
zero change notifications) or performs exactly one replacement, equal to
the previous collection with the accepted candidates appended in order,
with exactly one change notification. -/
theorem c3_single_atomic_append (cfg : Config) (tags : List Tag) (input : AddInput) :
    (addTags cfg tags input = none ∧ notificationCount (addTags cfg tags input) = 0) ∨
    (∃ accepted : List Tag, accepted ≠ [] ∧
      addTags cfg tags input = some (tags ++ accepted) ∧
      notificationCount (addTags cfg tags input) = 1) := by
  unfold addTags
  split
  · exact Or.inl ⟨rfl, rfl⟩
  split
  · exact Or.inl ⟨rfl, rfl⟩
  split
  · exact Or.inl ⟨rfl, rfl⟩
  split
  · exact Or.inl ⟨rfl, rfl⟩
  unfold addTagsCommit
  split
  · exact Or.inl ⟨rfl, rfl⟩
  split
  · next h6 => exact Or.inr ⟨_, List.length_pos.mp h6, rfl, rfl⟩
  · exact Or.inl ⟨rfl, rfl⟩

/-! ### Claim C4 -/

/-- C4: with `minTags` set and positive and the current length below it,
`addTags` is a no-op (no mutation, no notification) for every input. -/
theorem c4_minTags_precheck_gates (cfg : Config) (k : Int) (tags : List Tag)
    (input : AddInput) (hmin : cfg.minTags = some k) (hk : 0 < k)
    (hlen : (tags.length : Int) < k) : addTags cfg tags input = none := by
  unfold addTags
  split
  · rfl
  split
  · rfl
  split
  · rfl
  split
  · rfl
  next h4 =>
    exfalso
    apply h4
    rw [hmin]
    simp [minBelow, intTruthy]
    omega

/-- Witness for C4: `minTags = 2`, empty collection, single candidate. -/
theorem c4_minTags_precheck_gates_witness :
    ({ minTags := some 2 } : Config).minTags = some 2 ∧ (0 : Int) < 2 ∧
    ((([] : List Tag).length : Int) < 2) ∧
    addTags { minTags := some 2 } [] (.single (.str ("a"))) = none :=
  ⟨rfl, by decide, by decide,
    c4_minTags_precheck_gates { minTags := some 2 } 2 [] (.single (.str ("a")))
      rfl (by decide) (by decide)⟩

/-! ### Claim C5 -/

/-- C5: `removeTag` with an index that is negative, at least the length,
or not a whole number leaves the collection unchanged and issues no
change notification; on an interactive controller a valid whole index `i`
yields exactly one write of the collection with position `i` excised and
the order of the remaining elements preserved. -/
theorem c5_removeTag_bounds_and_order (cfg : Config) (tags : List Tag) (q : ℚ) :
    ((q < 0 ∨ (tags.length : ℚ) ≤ q ∨ q.den ≠ 1) →
      (removeTag cfg tags q).newTags = none) ∧
    (cfg.isTagNonInteractive = false →
      ∀ i : Nat, i < tags.length →
        (removeTag cfg tags (i : ℚ)).newTags
          = some (tags.take i ++ tags.drop (i + 1))) := by
  constructor
  · intro h
    unfold removeTag
    split
    · rfl
    · have hc : (decide (q < 0) || decide ((tags.length : ℚ) ≤ q)
          || decide (q.den ≠ 1)) = true := by
        simp only [Bool.or_eq_true, decide_eq_true_eq]
        tauto
      rw [if_pos hc]
  · intro hni i hi
    unfold removeTag
    simp only [hni, Bool.false_eq_true, if_false]
    rw [if_neg (by simp [hi])]
    have hnum : ((i : ℚ).num.toNat) = i := by
      rw [Rat.num_natCast]
      exact Int.toNat_natCast i
    rw [hnum, List.eraseIdx_eq_take_drop_succ]

/-- Witness for C5: out-of-range index 5 on a three-element collection is
a no-op; valid index 1 excises the middle element. -/
theorem c5_removeTag_bounds_and_order_witness :
    ((5 : ℚ) < 0 ∨ (([Tag.prim (.str ("a")), Tag.prim (.str ("b")),
        Tag.prim (.str ("c"))].length : ℚ) ≤ 5 ∨ (5 : ℚ).den ≠ 1)) ∧
    (removeTag { } [Tag.prim (.str ("a")), Tag.prim (.str ("b")),
        Tag.prim (.str ("c"))] 5).newTags = none ∧
    (removeTag { } [Tag.prim (.str ("a")), Tag.prim (.str ("b")),
        Tag.prim (.str ("c"))] ((1 : Nat) : ℚ)).newTags
      = some ([Tag.prim (.str ("a")), Tag.prim (.str ("b")),
          Tag.prim (.str ("c"))].take 1
        ++ [Tag.prim (.str ("a")), Tag.prim (.str ("b")),
            Tag.prim (.str ("c"))].drop 2) :=
  ⟨by decide,
   (c5_removeTag_bounds_and_order { } [Tag.prim (.str ("a")),
      Tag.prim (.str ("b")), Tag.prim (.str ("c"))] 5).1 (by decide),
   (c5_removeTag_bounds_and_order { } [Tag.prim (.str ("a")),
      Tag.prim (.str ("b")), Tag.prim (.str ("c"))] 5).2 rfl 1 (by decide)⟩

/-! ### Claim C6 -/

/-- C6 fails on the code as claimed: with comma delimiters, a fresh regex
(`lastIndex` 0, as on first use) and raw input 0, 1 both split pieces are
non-empty, yet the piece 0 is dropped — the pieces go through numeric
coercion and `filter(Boolean)`, and the number 0 is falsy — so the parser
does not keep every non-empty piece. -/
theorem c6_counterexample :
    splitDelims [Delimiter.comma] ("0, 1").toList = [("0"), ("1")] ∧
    (("0") : String) ≠ ("") ∧
    (processInputValue [Delimiter.comma] ("0, 1") 0).1
      = some [Primitive.num (JsNum.finite 1)] :=
  ⟨by decide, by decide, by decide⟩

/-- C6 amended: per call, the parser trims the raw text and yields
nothing when the trim is empty, leaving the regex state untouched; with
no configured delimiter the short-circuit skips the test and the batch is
the single parsed trimmed text, state untouched; otherwise the memoized
global regex's stateful test runs, searching only from its current
`lastIndex` and updating it, and on failure the batch is again the single
parsed trimmed text while on success the whole trimmed text is split,
each piece parsed (numeric pieces coerced to numbers, others trimmed) and
exactly the truthy-parsing pieces kept — dropping empty pieces and pieces
that parse to the number 0. A pattern occurrence hence guarantees
splitting only from a fresh state: comma-splitting red, blue ,green at
`lastIndex` 0 yields red, blue, green, and a first call on x, x leaves
`lastIndex` 3, from which the matching text a, b tests false and is
parsed as one single tag. -/
theorem c6_amended_parse (ds : List Delimiter) (s : String) (li : Nat) :
    (jsTrim s = ("") → processInputValue ds s li = (none, li)) ∧
    (jsTrim s ≠ ("") → ds.length = 0 →
      processInputValue ds s li = (some [parseTag (jsTrim s)], li)) ∧
    (jsTrim s ≠ ("") → ds.length ≠ 0 →
      (delimTest ds (jsTrim s).toList li).1 = false →
      processInputValue ds s li
        = (some [parseTag (jsTrim s)], (delimTest ds (jsTrim s).toList li).2)) ∧
    (jsTrim s ≠ ("") → ds.length ≠ 0 →
      (delimTest ds (jsTrim s).toList li).1 = true →
      processInputValue ds s li
        = (some (((splitDelims ds (jsTrim s).toList).map parseTag).filter jsTruthyPrim),
           (delimTest ds (jsTrim s).toList li).2) ∧
      ∀ p : Primitive,
        p ∈ ((splitDelims ds (jsTrim s).toList).map parseTag).filter jsTruthyPrim ↔
          (p ∈ (splitDelims ds (jsTrim s).toList).map parseTag ∧ jsTruthyPrim p = true)) ∧
    processInputValue [Delimiter.comma] ("red, blue ,green") 0
      = (some [Primitive.str ("red"), Primitive.str ("blue"),
          Primitive.str ("green")], 5) ∧
    processInputValue [Delimiter.comma] ("x, x") 0
      = (some [Primitive.str ("x"), Primitive.str ("x")], 3) ∧
    (delimTest [Delimiter.comma] ("a, b").toList 0).1 = true ∧
    processInputValue [Delimiter.comma] ("a, b") 3
      = (some [Primitive.str ("a, b")], 0) := by
  refine ⟨fun h => ?_, fun h h0 => ?_, fun h h0 hf => ?_,
    fun h h0 ht => ⟨?_, fun p => List.mem_filter⟩,
    by decide, by decide, by decide, by decide⟩
  · simp only [processInputValue]
    rw [if_pos h]
  · simp only [processInputValue]
    rw [if_neg h, if_pos h0]
  · simp only [processInputValue]
    rw [if_neg h, if_neg h0, if_neg (by simpa using hf)]
  · simp only [processInputValue]
    rw [if_neg h, if_neg h0, if_pos (by simpa using ht)]

/-- Witness for C6 amended at comma delimiters, a matching input and a
fresh regex state. -/
theorem c6_amended_parse_witness :
    jsTrim ("a, b") ≠ ("") ∧
    ([Delimiter.comma] : List Delimiter).length ≠ 0 ∧
    (delimTest [Delimiter.comma] (jsTrim ("a, b")).toList 0).1 = true ∧
    processInputValue [Delimiter.comma] ("a, b") 0
      = (some (((splitDelims [Delimiter.comma] (jsTrim ("a, b")).toList).map
          parseTag).filter jsTruthyPrim),
         (delimTest [Delimiter.comma] (jsTrim ("a, b")).toList 0).2) :=
  ⟨by decide, by decide, by decide,
   ((c6_amended_parse [Delimiter.comma] ("a, b") 0).2.2.2.1 (by decide) (by decide)
     (by decide)).1⟩

/-! ### Claim C7 -/

/-- C7 fails on the code as claimed: an empty-string candidate passed
directly to `addTags` is not filtered out (`tag == null` only catches
null and undefined, and the empty string is not a duplicate of anything
in an empty collection), so it is added as a tag with a notification. -/
theorem c7_counterexample :
    addTags { } [] (.single (.str (""))) = some [Tag.prim (.str (""))] := by
  decide

/-- C7 amended: a null input and an empty batch are no-ops for `addTags`
(no mutation, no notification), and pasted or typed text that is empty
after trimming never reaches `addTags` at all (the parser yields no
batch); an empty-string candidate handed directly to `addTags`, however,
is not filtered and can be added. -/
theorem c7_amended_no_op (cfg : Config) (tags : List Tag)
    (ds : List Delimiter) (s : String) (li : Nat) :
    addTags cfg tags .nullInput = none ∧
    addTags cfg tags (.batch []) = none ∧
    (jsTrim s = ("") → processInputValue ds s li = (none, li)) := by
  refine ⟨?_, ?_, fun h => ?_⟩
  · simp [addTags, isNullInput]
  · simp [addTags, addTagsCommit, addTagsLoop, isNullInput, toArrayTags]
  · simp only [processInputValue]
    rw [if_pos h]

/-- Witness for C7 amended: null input, empty batch and whitespace-only
text at a concrete configuration and a fresh regex state. -/
theorem c7_amended_no_op_witness :
    addTags { } [] AddInput.nullInput = none ∧
    addTags { } [] (AddInput.batch []) = none ∧
    jsTrim ("   ") = ("") ∧
    processInputValue [Delimiter.comma] ("   ") 0 = (none, 0) :=
  ⟨(c7_amended_no_op { } [] [Delimiter.comma] ("   ") 0).1,
   (c7_amended_no_op { } [] [Delimiter.comma] ("   ") 0).2.1,
   by decide,
   (c7_amended_no_op { } [] [Delimiter.comma] ("   ") 0).2.2 (by decide)⟩

/-! ### Claim C8 -/

/-- C8 fails on the code: a valid removal itself focuses the text-entry
surface (the `inputRef.current?.focus()` call inside `removeTag`), so the
Remove Engine does make a focus decision rather than leaving it entirely
to the caller. -/
theorem c8_counterexample :
    (removeTag { } [Tag.prim (.str ("a")), Tag.prim (.str ("b"))] 0).focusedInput
      = true ∧
    (removeTag { } [Tag.prim (.str ("a")), Tag.prim (.str ("b"))] 0).newTags
      = some [Tag.prim (.str ("b"))] :=
  ⟨by decide, by decide⟩

/-- C8 amended: after every valid removal `removeTag` itself moves focus
to the text-entry surface, and on every rejected call it makes no focus
change; the engine never chooses an adjacent tag. -/
theorem c8_amended_focus (cfg : Config) (tags : List Tag) (q : ℚ) :
    ((removeTag cfg tags q).newTags ≠ none →
      (removeTag cfg tags q).focusedInput = true) ∧
    ((removeTag cfg tags q).newTags = none →
      (removeTag cfg tags q).focusedInput = false) := by
  unfold removeTag
  split
  · exact ⟨fun h => absurd rfl h, fun _ => rfl⟩
  split
  · exact ⟨fun h => absurd rfl h, fun _ => rfl⟩
  · exact ⟨fun _ => rfl, fun h => by simp at h⟩

/-- Witness for C8 amended: a successful single-element removal focuses
the input. -/
theorem c8_amended_focus_witness :
    (removeTag { } [Tag.prim (.str ("a"))] 0).newTags ≠ none ∧
    (removeTag { } [Tag.prim (.str ("a"))] 0).focusedInput = true :=
  ⟨by decide, (c8_amended_focus { } [Tag.prim (.str ("a"))] 0).1 (by decide)⟩

/-! ### Claim C9 -/

/-- C9: evaluation of the sibling search at the failing input. The tag
item renders `data-disabled` as the empty string when disabled, while the
search compares the attribute against the string true, so the check never
identifies a disabled sibling: `NavigateRight` from tag 0 of a roster
whose tag 1 is disabled focuses the disabled tag 1 instead of skipping to
tag 2. From the last tag (no following sibling at all) the transition to
the text-entry surface does occur. -/
theorem c9_code_eval :
    dataDisabledAttr true = some ("") ∧
    siblingDisabledCheck (dataDisabledAttr true) = false ∧
    navigateRight [false, true, false] 0 = FocusState.focusedTag 1 ∧
    navigateRight [false, false] 1 = FocusState.textEntry :=
  ⟨rfl, rfl, rfl, rfl⟩

/-! ### Claim C10 -/

theorem maxLimitHit_zero (n : Nat) : maxLimitHit (some 0) n = false := by
  simp [maxLimitHit, intTruthy]

theorem minBelow_zero (n : Nat) : minBelow (some 0) n = false := by
  simp [minBelow, intTruthy]

theorem minBelow_none (n : Nat) : minBelow none n = false := rfl

theorem addTagsLoop_congr (cfg cfg' : Config)
    (h1 : cfg.allowDuplicates = cfg'.allowDuplicates)
    (h2 : cfg.caseSensitiveDuplicates = cfg'.caseSensitiveDuplicates)
    (h3 : cfg.parseInput = cfg'.parseInput)
    (hmax : ∀ n, maxLimitHit cfg.maxTags n = maxLimitHit cfg'.maxTags n)
    (baseLen : Nat) (existing : List String) :
    ∀ (candidates : List Primitive) (uniq : List String) (acc : List Tag),
      addTagsLoop cfg baseLen existing candidates uniq acc
        = addTagsLoop cfg' baseLen existing candidates uniq acc := by
  intro candidates
  induction candidates with
  | nil => intro uniq acc; rfl
  | cons c rest ih =>
    intro uniq acc
    simp only [addTagsLoop, applyParseInput, h1, h2, h3, hmax]
    cases hb : maxLimitHit cfg'.maxTags (baseLen + acc.length) with
    | true => rfl
    | false =>
      simp only [Bool.false_eq_true, if_false]
      by_cases hd : cfg'.allowDuplicates = true
      · simp only [hd, if_true]
        exact ih _ _
      · simp only [eq_false_of_ne_true hd, Bool.false_eq_true, if_false]
        split
        · exact ih _ _
        · exact ih _ _

/-- C10: `maxTags = 0` is falsy, so `addTags` applies no capacity
constraint at all — it behaves exactly as with `maxTags` unset (rather
than allowing zero tags) — and `minTags = 0` likewise behaves as unset;
in particular with `maxTags = 0` a three-candidate batch adds all three
tags to an empty collection. -/
theorem c10_zero_limits_unset (cfg : Config) (tags : List Tag) (input : AddInput) :
    addTags { cfg with maxTags := some 0 } tags input
      = addTags { cfg with maxTags := none } tags input ∧
    addTags { cfg with minTags := some 0 } tags input
      = addTags { cfg with minTags := none } tags input ∧
    addTags { maxTags := some 0, allowDuplicates := true } []
        (.batch [.str ("a"), .str ("b"), .str ("c")])
      = some [.prim (.str ("a")), .prim (.str ("b")), .prim (.str ("c"))] := by
  refine ⟨?_, ?_, by decide⟩
  · have hl := addTagsLoop_congr { cfg with maxTags := some 0 }
      { cfg with maxTags := none } rfl rfl rfl
      (fun n => by rw [maxLimitHit_zero, maxLimitHit_none])
      tags.length (existingNorms { cfg with maxTags := some 0 } tags)
      (toArrayTags input) [] []
    simp only [addTags, addTagsCommit, existingNorms, maxLimitHit_zero,
      maxLimitHit_none] at hl ⊢
    rw [hl]
  · have hl := addTagsLoop_congr { cfg with minTags := some 0 }
      { cfg with minTags := none } rfl rfl rfl (fun n => rfl)
      tags.length (existingNorms { cfg with minTags := some 0 } tags)
      (toArrayTags input) [] []
    simp only [addTags, addTagsCommit, existingNorms, minBelow_zero,
      minBelow_none] at hl ⊢
    rw [hl]

end TagsInput
